import Mathlib

/-!
Shallow embedding of `jupyterlite_core/manager.py` (class `LiteManager`):
the addon registry builder `create_addons`, the sys-prefix selector
`_is_sys_prefix_ignored`, the doit task-generator map `_default_doit_tasks`,
and the per-attribute task gatherer `_gather` (the closure built by
`_gather_tasks`).

Python exceptions are modelled explicitly: an addon's task generator is a
list of events (yield a task, or raise), and factories return `Except`.
Log output is modelled as a list of (level, message) pairs.
-/

namespace JL

/-- Log severity, mirroring `self.log.debug/info/warning/error`. -/
inductive LogLevel
  | debug
  | info
  | warning
  | error
deriving DecidableEq, Repr

/-- A doit task descriptor: a dict with a `"name"` entry plus other entries
the manager never inspects (modelled as an association list). -/
structure Task where
  name : String
  fields : List (String × String)
deriving DecidableEq, Repr

/-- One event of an addon's task generator: yield a task descriptor, or
raise an exception carrying message `e`. -/
inductive Emit
  | task (t : Task)
  | raiseE (e : String)
deriving DecidableEq, Repr

/-- An addon instance: `all` is its `__all__` capability list, `run attr`
is the event sequence produced by `getattr(addon, attr)(self)`. -/
structure Addon where
  all : List String
  run : String → List Emit

/-- The `ignore_sys_prefix` trait: a tuple of addon names, or a bool
(`addon in ignore if isinstance(ignore, tuple) else ignore`). -/
inductive IgnoreSel
  | names (l : List String)
  | flag (b : Bool)
deriving DecidableEq, Repr

/-- The run configuration of `LiteManager`: the `strict` trait, the
`task_prefix` trait (field `task_pfx`), `disable_addons` and the
`ignore_sys_prefix` selector (field `ignore_sys_pfx`). -/
structure LiteManager where
  strict : Bool
  task_pfx : String
  disable_addons : List String
  ignore_sys_pfx : IgnoreSel

/-- Iterating a generator: the tasks yielded before the first raise, and
the raised message if the iteration ended in an exception. -/
def consume : List Emit → List Task × Option String
  | [] => ([], none)
  | Emit.task t :: rest =>
    let r := consume rest
    (t :: r.1, r.2)
  | Emit.raiseE e :: _ => ([], some e)

/-- `patched_task = {**task}; patched_task["name"] = f"{task_prefix}{name}:{task[name]}"`:
a shallow copy with only the name rewritten. -/
def patchTask (pfx n : String) (t : Task) : Task :=
  { t with name := pfx ++ n ++ ":" ++ t.name }

/-- `self.log.error(f"[lite] [{attr}] [{name}] [ERR] {error}")`. -/
def errLog (attr n e : String) : LogLevel × String :=
  (LogLevel.error, "[lite] [" ++ attr ++ "] [" ++ n ++ "] [ERR] " ++ e)

/-- The observable outcome of running `_gather` for one attribute key:
the task descriptors yielded, the log lines written, the names of the
addons whose method was invoked, and the propagated exception, if any. -/
structure GatherRes where
  tasks : List Task
  logs : List (LogLevel × String)
  calls : List String
  err : Option String
deriving DecidableEq, Repr

/-- The `_gather` closure of `_gather_tasks`: walk the addon registry in
order; for each addon implementing `attr`, iterate its generator, patch
and yield each task; on an exception log an error and, when `strict`,
re-raise (ending the whole generator), otherwise continue with the next
addon. -/
def _gather (m : LiteManager) (attr : String) : List (String × Addon) → GatherRes
  | [] => ⟨[], [], [], none⟩
  | (name, addon) :: rest =>
    if attr ∈ addon.all then
      match consume (addon.run attr) with
      | (ts, none) =>
        let r := _gather m attr rest
        ⟨ts.map (patchTask m.task_pfx name) ++ r.tasks, r.logs, name :: r.calls, r.err⟩
      | (ts, some e) =>
        if m.strict then
          ⟨ts.map (patchTask m.task_pfx name), [errLog attr name e], [name], some e⟩
        else
          let r := _gather m attr rest
          ⟨ts.map (patchTask m.task_pfx name) ++ r.tasks,
           errLog attr name e :: r.logs, name :: r.calls, r.err⟩
    else _gather m attr rest

/-- `_is_sys_prefix_ignored`: membership when the selector is a tuple of
names, the bool itself otherwise. -/
def _is_sys_prefix_ignored (m : LiteManager) (addon : String) : Bool :=
  match m.ignore_sys_pfx with
  | IgnoreSel.names l => decide (addon ∈ l)
  | IgnoreSel.flag b => b

/-- An addon factory (entry-point implementation): called with the manager
and the `ignore_sys_prefix` keyword (absent = false); may raise. -/
abbrev AddonFactory := LiteManager → Bool → Except String Addon

/-- `f"[lite] [addon] [{name}] skipped by config"` at info level. -/
def skipLog (n : String) : LogLevel × String :=
  (LogLevel.info, "[lite] [addon] [" ++ n ++ "] skipped by config")

/-- `f"[lite] [addon] [{name}] ... ignore sys prefix"` at debug level. -/
def ignoreLog (n : String) : LogLevel × String :=
  (LogLevel.debug, "[lite] [addon] [" ++ n ++ "] ... ignore sys prefix")

/-- `f"[lite] [addon] [{name}] ... will {one}"` at debug level. -/
def willLog (n one : String) : LogLevel × String :=
  (LogLevel.debug, "[lite] [addon] [" ++ n ++ "] ... will " ++ one)

/-- `f"[lite] [addon] [{name}] FAIL"` at warning level. -/
def failLog (n : String) : LogLevel × String :=
  (LogLevel.warning, "[lite] [addon] [" ++ n ++ "] FAIL")

/-- The observable outcome of `create_addons`: the registry built, the log
lines written, and the factory invocations performed (addon name paired
with the `ignore_sys_prefix` flag it was constructed with). -/
structure CreateResult where
  addons : List (String × Addon)
  logs : List (LogLevel × String)
  invoked : List (String × Bool)

/-- `create_addons`: for each candidate, skip it when disabled (factory
never called); otherwise construct it with the computed
`ignore_sys_prefix` flag; a construction failure is logged as a warning
and the addon dropped, never aborting the loop. -/
def create_addons (m : LiteManager) : List (String × AddonFactory) → CreateResult
  | [] => ⟨[], [], []⟩
  | (name, impl) :: rest =>
    if name ∈ m.disable_addons then
      let r := create_addons m rest
      ⟨r.addons, skipLog name :: r.logs, r.invoked⟩
    else
      let flag := _is_sys_prefix_ignored m name
      let preLogs := if flag then [ignoreLog name] else []
      match impl m flag with
      | Except.ok inst =>
        let r := create_addons m rest
        ⟨(name, inst) :: r.addons,
         preLogs ++ (inst.all.mergeSort (fun a b => a ≤ b)).map (willLog name) ++ r.logs,
         (name, flag) :: r.invoked⟩
      | Except.error _ =>
        let r := create_addons m rest
        ⟨r.addons, preLogs ++ failLog name :: r.logs, (name, flag) :: r.invoked⟩

/-- Modelled from the spec: the `PHASES` constant lives in the constants
module, which is not among the source files. The spec fixes the phase
order pre, main, post, with attribute keys `phase + stage` where the main
phase contributes the bare stage name (`pre_build`, `build`,
`post_build`), matching the code's literal comparison `phase == "pre_"`. -/
def PHASES : List String := ["pre_", "", "post_"]

/-- One entry of the `_default_doit_tasks` dict: the dict key
`f"task_{task_prefix}{attr}"`, the attribute key `attr`, and the
`doit.create_after` gate `f"{task_prefix}{prev_attr}"` (none when
`prev_attr` is unset, in which case `_gather_tasks` returns the bare
generator). -/
structure TaskEntry where
  key : String
  attr : String
  create_after : Option String
deriving DecidableEq, Repr

/-- The inner phase loop of `_default_doit_tasks` for one hook: threads
`prev_attr` through, overriding it with `post_{HOOK_PARENTS[hook]}` when
the phase is `"pre_"` and the hook has a parent. Returns the entries and
the final `prev_attr`. -/
def phaseSteps (pfx : String) (hook_parents : List (String × String)) (hook : String) :
    List String → Option String → List TaskEntry × Option String
  | [], prev => ([], prev)
  | phase :: phases, prev =>
    let prev1 :=
      if phase = "pre_" then
        match hook_parents.lookup hook with
        | some par => some ("post_" ++ par)
        | none => prev
      else prev
    let attr := phase ++ hook
    let entry : TaskEntry := ⟨"task_" ++ pfx ++ attr, attr, prev1.map (fun p => pfx ++ p)⟩
    let r := phaseSteps pfx hook_parents hook phases (some attr)
    (entry :: r.1, r.2)

/-- The outer hook loop of `_default_doit_tasks`. -/
def hookSteps (pfx : String) (hook_parents : List (String × String)) :
    List String → Option String → List TaskEntry
  | [], _ => []
  | hook :: hooks, prev =>
    let r := phaseSteps pfx hook_parents hook PHASES prev
    r.1 ++ hookSteps pfx hook_parents hooks r.2

/-- `_default_doit_tasks`: iterate hooks in order and phases in `PHASES`
order, producing one gated generator entry per attribute key. `hooks` and
`hook_parents` stand for the externally supplied `HOOKS` and
`HOOK_PARENTS` constants. -/
def _default_doit_tasks (m : LiteManager) (hooks : List String)
    (hook_parents : List (String × String)) : List TaskEntry :=
  hookSteps m.task_pfx hook_parents hooks none

/-- All task names emitted over an entire run: each generator node of
`_default_doit_tasks` materialised by `_gather` over the registry, in
order, concatenated. -/
def runEmittedNames (m : LiteManager) (hooks : List String)
    (hook_parents : List (String × String)) (addons : List (String × Addon)) : List String :=
  ((_default_doit_tasks m hooks hook_parents).map
    (fun en => (_gather m en.attr addons).tasks.map Task.name)).flatten

/-! ## Theorems -/

/-- If two lists agree after appending `c :: tail`s and neither contains
the separator `c`, the parts before and after the separator agree. -/
theorem sep_inj {α : Type} {c : α} :
    ∀ {a b x y : List α}, c ∉ a → c ∉ b → a ++ c :: x = b ++ c :: y → a = b ∧ x = y := by
  intro a
  induction a with
  | nil =>
    intro b x y _ hb h
    cases b with
    | nil =>
      simp only [List.nil_append] at h
      exact ⟨rfl, (List.cons.injEq _ _ _ _ ▸ h).2⟩
    | cons b' bs =>
      simp only [List.nil_append, List.cons_append, List.cons.injEq] at h
      cases h.1
      exact absurd (List.mem_cons_self _ _) hb
  | cons a' as ih =>
    intro b x y ha hb h
    cases b with
    | nil =>
      simp only [List.nil_append, List.cons_append, List.cons.injEq] at h
      cases h.1
      exact absurd (List.mem_cons_self _ _) ha
    | cons b' bs =>
      simp only [List.cons_append, List.cons.injEq] at h
      obtain ⟨h1, h2⟩ := h
      have hr := ih (fun hc => ha (List.mem_cons_of_mem _ hc))
        (fun hc => hb (List.mem_cons_of_mem _ hc)) h2
      exact ⟨by rw [h1, hr.1], hr.2⟩

/-- Namespaced task names built from colon-free addon names determine the
addon name and the original task name. -/
theorem patched_name_inj (pfx n1 n2 t1 t2 : String)
    (h1 : ':' ∉ n1.data) (h2 : ':' ∉ n2.data)
    (h : pfx ++ n1 ++ ":" ++ t1 = pfx ++ n2 ++ ":" ++ t2) : n1 = n2 ∧ t1 = t2 := by
  have hd := congrArg String.data h
  have hc : (":" : String).data = [':'] := rfl
  simp only [String.data_append, hc, List.append_assoc, List.singleton_append] at hd
  have hd2 := List.append_cancel_left hd
  have hr := sep_inj h1 h2 hd2
  exact ⟨String.ext hr.1, String.ext hr.2⟩

/-- C1: for stages `[A, B]`, phases pre/main/post and parent map `{B: A}`,
`_default_doit_tasks` produces exactly the attribute keys
`pre_A, A, post_A, pre_B, B, post_B` in order (dict keys `task_` + key),
with the first key ungated, `pre_B` gated on `post_A`, and every other
key gated on its immediate linear predecessor. -/
theorem C1_lifecycle_chain :
    ((_default_doit_tasks ⟨true, "", [], IgnoreSel.flag false⟩ ["A", "B"]
        [("B", "A")]).map TaskEntry.attr =
      ["pre_A", "A", "post_A", "pre_B", "B", "post_B"]) ∧
    ((_default_doit_tasks ⟨true, "", [], IgnoreSel.flag false⟩ ["A", "B"]
        [("B", "A")]).map TaskEntry.key =
      ["task_pre_A", "task_A", "task_post_A", "task_pre_B", "task_B", "task_post_B"]) ∧
    ((_default_doit_tasks ⟨true, "", [], IgnoreSel.flag false⟩ ["A", "B"]
        [("B", "A")]).map TaskEntry.create_after =
      [none, some "pre_A", some "A", some "post_A", some "pre_B", some "B"]) := by
  refine ⟨?_, ?_, ?_⟩ <;> decide

/-- C2 counterexample: one addon implementing two attribute keys with the
same local task name makes the same full name appear twice across the
run, so run-wide pairwise distinctness fails as stated. -/
theorem C2_run_collision :
    (runEmittedNames ⟨true, "", [], IgnoreSel.flag false⟩ ["build"] []
      [("a", ⟨["pre_build", "build"], fun _ => [Emit.task ⟨"t", []⟩]⟩)] =
      ["a:t", "a:t"]) ∧
    ¬ (runEmittedNames ⟨true, "", [], IgnoreSel.flag false⟩ ["build"] []
      [("a", ⟨["pre_build", "build"], fun _ => [Emit.task ⟨"t", []⟩]⟩)]).Nodup := by
  refine ⟨?_, ?_⟩ <;> decide

/-- C2 (amended): every emitted name is rewritten to
`prefix + addonName + ":" + originalName`, and within one generator two
tasks from addons with colon-free names collide exactly when both the
addon names and the local task names coincide; distinct addons therefore
never collide, but the same name can recur across attribute keys or
within one addon. -/
theorem C2_names_namespaced (pfx n1 n2 t1 t2 : String) (f1 f2 : List (String × String))
    (h1 : ':' ∉ n1.data) (h2 : ':' ∉ n2.data) :
    (patchTask pfx n1 ⟨t1, f1⟩).name = pfx ++ n1 ++ ":" ++ t1 ∧
    ((patchTask pfx n1 ⟨t1, f1⟩).name = (patchTask pfx n2 ⟨t2, f2⟩).name ↔
      (n1 = n2 ∧ t1 = t2)) := by
  refine ⟨rfl, ?_, ?_⟩
  · intro h
    exact patched_name_inj pfx n1 n2 t1 t2 h1 h2 h
  · rintro ⟨rfl, rfl⟩
    rfl

/-- C2 witness: the amended statement at `pfx = ""`, addons `a`, `b`,
task name `t`. -/
theorem C2_names_namespaced_witness :
    (patchTask "" "a" ⟨"t", []⟩).name = "" ++ "a" ++ ":" ++ "t" ∧
    ((patchTask "" "a" ⟨"t", []⟩).name = (patchTask "" "b" ⟨"t", []⟩).name ↔
      ("a" = "b" ∧ "t" = "t")) :=
  C2_names_namespaced "" "a" "b" "t" "t" [] [] (by decide) (by decide)

/-- Iterating a generator that yields `pre` and then raises `e`: exactly
the tasks of `pre` come out, with the exception. -/
theorem consume_partial (pre : List Task) (e : String) (post : List Emit) :
    consume (pre.map Emit.task ++ Emit.raiseE e :: post) = (pre, some e) := by
  induction pre with
  | nil => rfl
  | cons t ts ih => simp [consume, ih]

/-- With strict mode off, `_gather` never propagates an exception. -/
theorem gather_err_none (m : LiteManager) (attr : String) (hs : m.strict = false) :
    ∀ reg : List (String × Addon), (_gather m attr reg).err = none := by
  intro reg
  induction reg with
  | nil => rfl
  | cons p reg ih =>
    obtain ⟨n, a⟩ := p
    by_cases hmem : attr ∈ a.all
    · cases hcv : consume (a.run attr) with
      | mk ts err =>
        cases err with
        | none => simp [_gather, hmem, hcv, ih]
        | some e => simp [_gather, hmem, hcv, hs, ih]
    · simp [_gather, hmem, ih]

/-- `_gather` over a registry whose first segment has no raising capable
addon splits into the two segments' results: the first segment's tasks
and calls come first, and the exception and logs are the second
segment's. -/
theorem gather_append_ok (m : LiteManager) (attr : String) (l1 l2 : List (String × Addon))
    (h1 : ∀ p ∈ l1, attr ∈ p.2.all → (consume (p.2.run attr)).2 = none) :
    _gather m attr (l1 ++ l2) =
      ⟨(_gather m attr l1).tasks ++ (_gather m attr l2).tasks,
       (_gather m attr l2).logs,
       (_gather m attr l1).calls ++ (_gather m attr l2).calls,
       (_gather m attr l2).err⟩ := by
  induction l1 with
  | nil => simp [_gather]
  | cons p l1 ih =>
    obtain ⟨n, a⟩ := p
    have ihr := ih (fun q hq hm => h1 q (List.mem_cons_of_mem _ hq) hm)
    by_cases hmem : attr ∈ a.all
    · have hnone := h1 (n, a) (List.mem_cons_self _ _) hmem
      cases hcv : consume (a.run attr) with
      | mk ts err =>
        rw [hcv] at hnone
        simp only at hnone
        subst hnone
        simp [_gather, hmem, hcv, ihr]
    · simp [_gather, hmem, ihr]

/-- Every task `_gather` emits is the namespaced patch of a task yielded
by some capable addon of the registry. -/
theorem gather_provenance (m : LiteManager) (attr : String) :
    ∀ reg : List (String × Addon), ∀ t ∈ (_gather m attr reg).tasks,
      ∃ p, p ∈ reg ∧ attr ∈ p.2.all ∧
        ∃ t0, t0 ∈ (consume (p.2.run attr)).1 ∧ t = patchTask m.task_pfx p.1 t0 := by
  intro reg
  induction reg with
  | nil => intro t ht; simp [_gather] at ht
  | cons p reg ih =>
    obtain ⟨n, a⟩ := p
    intro t ht
    by_cases hmem : attr ∈ a.all
    · cases hcv : consume (a.run attr) with
      | mk ts err =>
        have hts : ∀ t0, t0 ∈ ts → t = patchTask m.task_pfx n t0 →
            ∃ p, p ∈ (n, a) :: reg ∧ attr ∈ p.2.all ∧
              ∃ t1, t1 ∈ (consume (p.2.run attr)).1 ∧ t = patchTask m.task_pfx p.1 t1 := by
          intro t0 h0 hpt
          exact ⟨(n, a), List.mem_cons_self _ _, hmem, t0, by rw [hcv]; exact h0, hpt⟩
        have htail : t ∈ (_gather m attr reg).tasks →
            ∃ p, p ∈ (n, a) :: reg ∧ attr ∈ p.2.all ∧
              ∃ t1, t1 ∈ (consume (p.2.run attr)).1 ∧ t = patchTask m.task_pfx p.1 t1 := by
          intro hin
          obtain ⟨q, hq, hqa, t1, ht1, hteq⟩ := ih t hin
          exact ⟨q, List.mem_cons_of_mem _ hq, hqa, t1, ht1, hteq⟩
        cases err with
        | none =>
          simp only [_gather, if_pos hmem, hcv] at ht
          rcases List.mem_append.mp ht with hin | hin
          · obtain ⟨t0, h0, hpt⟩ := List.mem_map.mp hin
            exact hts t0 h0 hpt.symm
          · exact htail hin
        | some e =>
          by_cases hstrict : m.strict
          · simp only [_gather, if_pos hmem, hcv, if_pos hstrict] at ht
            obtain ⟨t0, h0, hpt⟩ := List.mem_map.mp ht
            exact hts t0 h0 hpt.symm
          · simp only [_gather, if_pos hmem, hcv, if_neg hstrict] at ht
            rcases List.mem_append.mp ht with hin | hin
            · obtain ⟨t0, h0, hpt⟩ := List.mem_map.mp hin
              exact hts t0 h0 hpt.symm
            · exact htail hin
    · simp only [_gather, if_neg hmem] at ht
      obtain ⟨q, hq, hqa, t1, ht1, hteq⟩ := ih t ht
      exact ⟨q, List.mem_cons_of_mem _ hq, hqa, t1, ht1, hteq⟩

/-- C3: with strict mode on, when the first raising capable addon is hit,
the generator propagates that exception, yields nothing from any later
addon (its tasks and calls close with the raising addon), and an error
line naming the attribute key and the addon is logged. -/
theorem C3_strict_abort (m : LiteManager) (attr n e : String) (a : Addon)
    (l1 l2 : List (String × Addon))
    (hs : m.strict = true)
    (h1 : ∀ p ∈ l1, attr ∈ p.2.all → (consume (p.2.run attr)).2 = none)
    (ha : attr ∈ a.all)
    (he : (consume (a.run attr)).2 = some e) :
    (_gather m attr (l1 ++ (n, a) :: l2)).err = some e ∧
    (_gather m attr (l1 ++ (n, a) :: l2)).tasks =
      (_gather m attr l1).tasks ++ (consume (a.run attr)).1.map (patchTask m.task_pfx n) ∧
    (_gather m attr (l1 ++ (n, a) :: l2)).calls = (_gather m attr l1).calls ++ [n] ∧
    errLog attr n e ∈ (_gather m attr (l1 ++ (n, a) :: l2)).logs := by
  cases hcv : consume (a.run attr) with
  | mk ts err =>
    rw [hcv] at he
    simp only at he
    subst he
    have hhead : _gather m attr ((n, a) :: l2) =
        ⟨ts.map (patchTask m.task_pfx n), [errLog attr n e], [n], some e⟩ := by
      simp [_gather, ha, hcv, hs]
    have hsplit := gather_append_ok m attr l1 ((n, a) :: l2) h1
    rw [hsplit, hhead]
    simp [hcv]

/-- C4: with strict mode off, a raising capable addon contributes the
tasks it yielded before the exception, the error is logged against the
attribute key and addon name, the exception is swallowed, and the
remaining addons are still polled and their tasks emitted. -/
theorem C4_lenient_continue (m : LiteManager) (attr n e : String) (a : Addon)
    (rest : List (String × Addon))
    (hs : m.strict = false) (ha : attr ∈ a.all)
    (he : (consume (a.run attr)).2 = some e) :
    (_gather m attr ((n, a) :: rest)).tasks =
      (consume (a.run attr)).1.map (patchTask m.task_pfx n) ++ (_gather m attr rest).tasks ∧
    (_gather m attr ((n, a) :: rest)).logs =
      errLog attr n e :: (_gather m attr rest).logs ∧
    (_gather m attr ((n, a) :: rest)).calls = n :: (_gather m attr rest).calls ∧
    (_gather m attr ((n, a) :: rest)).err = none := by
  cases hcv : consume (a.run attr) with
  | mk ts err =>
    rw [hcv] at he
    simp only at he
    subst he
    simp [_gather, ha, hcv, hs, gather_err_none m attr hs rest]

/-- C7: in a registry whose capable addons raise nothing, `_gather`
invokes exactly the addons whose capability set contains the attribute
key, in order, and its output is exactly the concatenation of those
addons' patched task lists: an addon contributes iff the key is in its
capability set. -/
theorem C7_capability_gate (m : LiteManager) (attr : String)
    (reg : List (String × Addon))
    (hok : ∀ p ∈ reg, attr ∈ p.2.all → (consume (p.2.run attr)).2 = none) :
    (_gather m attr reg).calls =
      (reg.filter (fun p => decide (attr ∈ p.2.all))).map Prod.fst ∧
    (_gather m attr reg).tasks =
      ((reg.filter (fun p => decide (attr ∈ p.2.all))).map
        (fun p => (consume (p.2.run attr)).1.map (patchTask m.task_pfx p.1))).flatten := by
  induction reg with
  | nil => simp [_gather]
  | cons p reg ih =>
    obtain ⟨n, a⟩ := p
    have ihr := ih (fun q hq hm => hok q (List.mem_cons_of_mem _ hq) hm)
    by_cases hmem : attr ∈ a.all
    · have hnone := hok (n, a) (List.mem_cons_self _ _) hmem
      cases hcv : consume (a.run attr) with
      | mk ts err =>
        rw [hcv] at hnone
        simp only at hnone
        subst hnone
        simp [_gather, hmem, hcv, ihr.1, ihr.2, List.filter_cons]
    · simp [_gather, hmem, ihr.1, ihr.2, List.filter_cons]

/-- C10: with strict mode off, an addon whose generator yields `pre` and
then raises still gets `pre` emitted (no rollback), the events after the
raise are abandoned (the result does not depend on them), the error is
logged, and the rest of the registry still contributes. -/
theorem C10_partial_emission (m : LiteManager) (attr n e : String) (a : Addon)
    (pre : List Task) (post : List Emit) (rest : List (String × Addon))
    (hs : m.strict = false) (ha : attr ∈ a.all)
    (hrun : a.run attr = pre.map Emit.task ++ Emit.raiseE e :: post) :
    (_gather m attr ((n, a) :: rest)).tasks =
      pre.map (patchTask m.task_pfx n) ++ (_gather m attr rest).tasks ∧
    errLog attr n e ∈ (_gather m attr ((n, a) :: rest)).logs := by
  have hcv : consume (a.run attr) = (pre, some e) := by
    rw [hrun]; exact consume_partial pre e post
  simp [_gather, ha, hcv, hs]

/-- Registry construction distributes over concatenation of the candidate
list: every candidate is processed independently of the others. -/
theorem create_addons_append (m : LiteManager) (l1 l2 : List (String × AddonFactory)) :
    (create_addons m (l1 ++ l2)).addons =
      (create_addons m l1).addons ++ (create_addons m l2).addons ∧
    (create_addons m (l1 ++ l2)).logs =
      (create_addons m l1).logs ++ (create_addons m l2).logs ∧
    (create_addons m (l1 ++ l2)).invoked =
      (create_addons m l1).invoked ++ (create_addons m l2).invoked := by
  induction l1 with
  | nil => simp [create_addons]
  | cons c l1 ih =>
    obtain ⟨name, impl⟩ := c
    by_cases hdis : name ∈ m.disable_addons
    · simp [create_addons, hdis, ih.1, ih.2.1, ih.2.2]
    · cases himpl : impl m (_is_sys_prefix_ignored m name) with
      | ok inst => simp [create_addons, hdis, himpl, ih.1, ih.2.1, ih.2.2]
      | error err => simp [create_addons, hdis, himpl, ih.1, ih.2.1, ih.2.2]

/-- A single candidate whose construction raises produces an empty
registry, the FAIL warning, and one recorded factory invocation. -/
theorem create_addons_single_error (m : LiteManager) (n e : String) (f : AddonFactory)
    (hd : n ∉ m.disable_addons)
    (hf : f m (_is_sys_prefix_ignored m n) = Except.error e) :
    create_addons m [(n, f)] =
      ⟨[], (if _is_sys_prefix_ignored m n then [ignoreLog n] else []) ++ [failLog n],
       [(n, _is_sys_prefix_ignored m n)]⟩ := by
  simp [create_addons, hd, hf]

/-- Every registry entry's name escaped the disabled list. -/
theorem create_addons_not_disabled (m : LiteManager) :
    ∀ cands : List (String × AddonFactory), ∀ p ∈ (create_addons m cands).addons,
      p.1 ∉ m.disable_addons := by
  intro cands
  induction cands with
  | nil => intro p hp; simp [create_addons] at hp
  | cons c cands ih =>
    obtain ⟨name, impl⟩ := c
    intro p hp
    by_cases hdis : name ∈ m.disable_addons
    · simp only [create_addons, if_pos hdis] at hp
      exact ih p hp
    · cases himpl : impl m (_is_sys_prefix_ignored m name) with
      | ok inst =>
        simp only [create_addons, if_neg hdis, himpl] at hp
        rcases List.mem_cons.mp hp with heq | hp2
        · rw [heq]
          exact hdis
        · exact ih p hp2
      | error err =>
        simp only [create_addons, if_neg hdis, himpl] at hp
        exact ih p hp

/-- Every recorded factory invocation is of a non-disabled candidate and
carries exactly the `_is_sys_prefix_ignored` flag for its name. -/
theorem create_addons_invoked_spec (m : LiteManager) :
    ∀ cands : List (String × AddonFactory), ∀ p ∈ (create_addons m cands).invoked,
      p.1 ∉ m.disable_addons ∧ p.2 = _is_sys_prefix_ignored m p.1 := by
  intro cands
  induction cands with
  | nil => intro p hp; simp [create_addons] at hp
  | cons c cands ih =>
    obtain ⟨name, impl⟩ := c
    intro p hp
    by_cases hdis : name ∈ m.disable_addons
    · simp only [create_addons, if_pos hdis] at hp
      exact ih p hp
    · cases himpl : impl m (_is_sys_prefix_ignored m name) with
      | ok inst =>
        simp only [create_addons, if_neg hdis, himpl] at hp
        rcases List.mem_cons.mp hp with heq | hp2
        · rw [heq]
          exact ⟨hdis, rfl⟩
        · exact ih p hp2
      | error err =>
        simp only [create_addons, if_neg hdis, himpl] at hp
        rcases List.mem_cons.mp hp with heq | hp2
        · rw [heq]
          exact ⟨hdis, rfl⟩
        · exact ih p hp2

/-- C5: whatever the strict flag (the run configuration `m` is arbitrary
and `create_addons` never consults `strict`), a candidate whose factory
raises is dropped: the registry equals the one built without it, the
failure is logged as a warning, and every other candidate is still
constructed (the invocation trace keeps both segments). -/
theorem C5_construction_isolated (m : LiteManager) (n e : String) (f : AddonFactory)
    (l1 l2 : List (String × AddonFactory))
    (hd : n ∉ m.disable_addons)
    (hf : f m (_is_sys_prefix_ignored m n) = Except.error e) :
    (create_addons m (l1 ++ (n, f) :: l2)).addons = (create_addons m (l1 ++ l2)).addons ∧
    failLog n ∈ (create_addons m (l1 ++ (n, f) :: l2)).logs ∧
    (create_addons m (l1 ++ (n, f) :: l2)).invoked =
      (create_addons m l1).invoked ++ (n, _is_sys_prefix_ignored m n) ::
        (create_addons m l2).invoked := by
  have hmid := create_addons_single_error m n e f hd hf
  have hzip := create_addons_append m l1 ((n, f) :: l2)
  have hone := create_addons_append m [(n, f)] l2
  have hflat : create_addons m ((n, f) :: l2) = create_addons m ([(n, f)] ++ l2) := rfl
  have hall := create_addons_append m l1 l2
  refine ⟨?_, ?_, ?_⟩
  · rw [hzip.1, hflat, hone.1, hmid, hall.1]
    simp
  · rw [hzip.2.1, hflat, hone.2.1, hmid]
    simp
  · rw [hzip.2.2, hflat, hone.2.2, hmid]
    simp

/-- C6: a disabled addon name is never constructed (no recorded factory
invocation), never appears in the registry, and every task any generator
emits over that registry originates from a different, registered addon. -/
theorem C6_disabled_inert (m : LiteManager) (cands : List (String × AddonFactory))
    (d : String) (hd : d ∈ m.disable_addons) :
    d ∉ (create_addons m cands).invoked.map Prod.fst ∧
    d ∉ (create_addons m cands).addons.map Prod.fst ∧
    ∀ attr t, t ∈ (_gather m attr (create_addons m cands).addons).tasks →
      ∃ p, p ∈ (create_addons m cands).addons ∧ p.1 ≠ d ∧ attr ∈ p.2.all ∧
        ∃ t0, t0 ∈ (consume (p.2.run attr)).1 ∧ t = patchTask m.task_pfx p.1 t0 := by
  refine ⟨?_, ?_, ?_⟩
  · intro hmem
    obtain ⟨p, hp, hpd⟩ := List.mem_map.mp hmem
    exact (create_addons_invoked_spec m cands p hp).1 (hpd ▸ hd)
  · intro hmem
    obtain ⟨p, hp, hpd⟩ := List.mem_map.mp hmem
    exact create_addons_not_disabled m cands p hp (hpd ▸ hd)
  · intro attr t ht
    obtain ⟨p, hp, hpa, t0, ht0, hteq⟩ := gather_provenance m attr _ t ht
    refine ⟨p, hp, ?_, hpa, t0, ht0, hteq⟩
    intro hpd
    exact create_addons_not_disabled m cands p hp (hpd ▸ hd)

/-- C8: a candidate is constructed with the skip-sys-prefix flag exactly
when the `ignore_sys_prefix` selector is an explicit name list containing
the candidate, or the blanket boolean true; every factory invocation of
`create_addons` receives exactly that flag. -/
theorem C8_ignore_flag (m : LiteManager) (name : String)
    (cands : List (String × AddonFactory)) :
    (_is_sys_prefix_ignored m name = true ↔
      ((∃ l, m.ignore_sys_pfx = IgnoreSel.names l ∧ name ∈ l) ∨
        m.ignore_sys_pfx = IgnoreSel.flag true)) ∧
    ∀ p ∈ (create_addons m cands).invoked, p.2 = _is_sys_prefix_ignored m p.1 := by
  constructor
  · cases hsel : m.ignore_sys_pfx with
    | names l => simp [_is_sys_prefix_ignored, hsel]
    | flag b => simp [_is_sys_prefix_ignored, hsel]
  · intro p hp
    exact (create_addons_invoked_spec m cands p hp).2

/-- C9: the task yielded by the gatherer is a copy of the addon's
descriptor whose every field other than `name` is unchanged, and whose
`name` is the namespaced rewrite; the original descriptor is untouched. -/
theorem C9_shallow_copy (pfx n : String) (t : Task) :
    (patchTask pfx n t).fields = t.fields ∧
    (patchTask pfx n t).name = pfx ++ n ++ ":" ++ t.name :=
  ⟨rfl, rfl⟩

/-- C3 witness: two addons implement `build`, the first raises, strict is
on: the generator propagates the exception. -/
theorem C3_strict_abort_witness :
    (_gather ⟨true, "", [], IgnoreSel.flag false⟩ "build"
      ([] ++ ("p1", (⟨["build"], fun _ => [Emit.raiseE "boom"]⟩ : Addon)) ::
        [("p2", (⟨["build"], fun _ => [Emit.task ⟨"t2", []⟩]⟩ : Addon))])).err =
      some "boom" :=
  (C3_strict_abort ⟨true, "", [], IgnoreSel.flag false⟩ "build" "p1" "boom"
    ⟨["build"], fun _ => [Emit.raiseE "boom"]⟩ []
    [("p2", ⟨["build"], fun _ => [Emit.task ⟨"t2", []⟩]⟩)]
    rfl (by intro p hp; cases hp) (by decide) rfl).1

/-- C4 witness: same two addons with strict off: the exception is
swallowed. -/
theorem C4_lenient_continue_witness :
    (_gather ⟨false, "", [], IgnoreSel.flag false⟩ "build"
      (("p1", (⟨["build"], fun _ => [Emit.raiseE "boom"]⟩ : Addon)) ::
        [("p2", (⟨["build"], fun _ => [Emit.task ⟨"t2", []⟩]⟩ : Addon))])).err = none :=
  (C4_lenient_continue ⟨false, "", [], IgnoreSel.flag false⟩ "build" "p1" "boom"
    ⟨["build"], fun _ => [Emit.raiseE "boom"]⟩
    [("p2", ⟨["build"], fun _ => [Emit.task ⟨"t2", []⟩]⟩)]
    rfl (by decide) rfl).2.2.2

/-- C5 witness: a failing factory gets the FAIL warning logged while the
registry build goes on. -/
theorem C5_construction_isolated_witness :
    failLog "x" ∈ (create_addons ⟨true, "", [], IgnoreSel.flag false⟩
      ([] ++ ("x", fun _ _ => Except.error "ctor") ::
        [("y", fun _ _ => Except.ok ⟨[], fun _ => []⟩)])).logs :=
  (C5_construction_isolated ⟨true, "", [], IgnoreSel.flag false⟩ "x" "ctor"
    (fun _ _ => Except.error "ctor") []
    [("y", fun _ _ => Except.ok ⟨[], fun _ => []⟩)]
    (by decide) rfl).2.1

/-- C6 witness: a disabled addon never reaches the registry. -/
theorem C6_disabled_inert_witness :
    "bad" ∉ ((create_addons ⟨true, "", ["bad"], IgnoreSel.flag false⟩
      [("bad", fun _ _ => Except.ok ⟨["build"], fun _ => [Emit.task ⟨"t", []⟩]⟩)]).addons.map
        Prod.fst) :=
  (C6_disabled_inert ⟨true, "", ["bad"], IgnoreSel.flag false⟩
    [("bad", fun _ _ => Except.ok ⟨["build"], fun _ => [Emit.task ⟨"t", []⟩]⟩)]
    "bad" (by decide)).2.1

/-- C7 witness: of two addons only the one declaring `build` is polled. -/
theorem C7_capability_gate_witness :
    (_gather ⟨true, "", [], IgnoreSel.flag false⟩ "build"
      [("p", (⟨["build"], fun _ => [Emit.task ⟨"t", []⟩]⟩ : Addon)),
       ("q", (⟨[], fun _ => []⟩ : Addon))]).calls =
      ([("p", (⟨["build"], fun _ => [Emit.task ⟨"t", []⟩]⟩ : Addon)),
        ("q", (⟨[], fun _ => []⟩ : Addon))].filter
          (fun p => decide ("build" ∈ p.2.all))).map Prod.fst :=
  (C7_capability_gate ⟨true, "", [], IgnoreSel.flag false⟩ "build"
    [("p", ⟨["build"], fun _ => [Emit.task ⟨"t", []⟩]⟩), ("q", ⟨[], fun _ => []⟩)]
    (by
      intro p hp hm
      rcases List.mem_cons.mp hp with heq | hp2
      · rw [heq]
        rfl
      · rcases List.mem_cons.mp hp2 with heq | hp3
        · rw [heq]
          rfl
        · cases hp3)).1

/-- C8 witness: with the blanket boolean true selector, any candidate
gets the flag. -/
theorem C8_ignore_flag_witness :
    _is_sys_prefix_ignored ⟨true, "", [], IgnoreSel.flag true⟩ "z" = true :=
  (C8_ignore_flag ⟨true, "", [], IgnoreSel.flag true⟩ "z" []).1.mpr (Or.inr rfl)

/-- C10 witness: an addon yielding `t1`, raising, then holding `t2` still
gets `t1` emitted and the next addon's tasks appended, with strict off. -/
theorem C10_partial_emission_witness :
    (_gather ⟨false, "", [], IgnoreSel.flag false⟩ "build"
      (("p1", (⟨["build"],
          fun _ => [Emit.task ⟨"t1", []⟩, Emit.raiseE "boom", Emit.task ⟨"t2", []⟩]⟩ : Addon)) ::
        [("p2", (⟨["build"], fun _ => [Emit.task ⟨"t3", []⟩]⟩ : Addon))])).tasks =
      [Task.mk "t1" []].map (patchTask "" "p1") ++
        (_gather ⟨false, "", [], IgnoreSel.flag false⟩ "build"
          [("p2", (⟨["build"], fun _ => [Emit.task ⟨"t3", []⟩]⟩ : Addon))]).tasks :=
  (C10_partial_emission ⟨false, "", [], IgnoreSel.flag false⟩ "build" "p1" "boom"
    ⟨["build"], fun _ => [Emit.task ⟨"t1", []⟩, Emit.raiseE "boom", Emit.task ⟨"t2", []⟩]⟩
    [⟨"t1", []⟩] [Emit.task ⟨"t2", []⟩]
    [("p2", ⟨["build"], fun _ => [Emit.task ⟨"t3", []⟩]⟩)]
    rfl (by decide) rfl).1

end JL
